import Mathlib

/-!
Verification of the chart rendering engine of phone-usage-slack-reporter.

This file is a shallow embedding of src/utils/chart-generator.ts.  JS numbers
are modelled as rationals (all operations used by the renderer are exact
field operations and comparisons), pixel coordinates are rationals, and the
d3 scale helpers used by the source (scaleLinear with nice rounding) are
embedded following the d3 v7 sources (d3-scale continuous.js and d3-array
ticks.js), in exact arithmetic.  Angles for the pie chart are measured in
units of pi, so a full circle is the rational number 2.
-/

namespace ChartGen

/-! ## Fixed canvas geometry (chart-generator.ts lines 22-27) -/

def widthPx : ℚ := 800

def heightPx : ℚ := 400

def marginTop : ℚ := 50

def marginRight : ℚ := 80

def marginBottom : ℚ := 60

def marginLeft : ℚ := 60

def innerWidthPx : ℚ := widthPx - marginLeft - marginRight

def innerHeightPx : ℚ := heightPx - marginTop - marginBottom

/-- Models the JS expression `xs[i] || 0`: an out-of-range index yields
`undefined`, which `|| 0` turns into `0`; an in-range value (including a
negative one, which is truthy) is kept, and `0` itself is falsy so it also
maps to `0`. -/
def valOr0 (xs : List ℚ) (i : ℕ) : ℚ := (xs.get? i).getD 0

/-! ## d3 scaleLinear (d3-scale, continuous.js)

A two-point continuous scale maps `x` through
`normalize(d0, d1)` then `interpolate(r0, r1)`.  When the domain is
degenerate (`d1 - d0 = 0`), d3 normalize returns the constant 1/2, so every
input lands at the middle of the pixel range. -/

def linmap (d0 d1 r0 r1 x : ℚ) : ℚ :=
  if d1 - d0 = 0 then r0 + (1 / 2) * (r1 - r0)
  else r0 + ((x - d0) / (d1 - d0)) * (r1 - r0)

/-! ## Decimal digit strings

`natDigits n` is the list of decimal digit characters of `n`, exactly the
text JS produces for a non-negative integer inside a template literal.
The recursion is fuelled so that the kernel can evaluate it. -/

def natDigitsAux : ℕ → ℕ → List Char
  | 0, _ => []
  | fuel + 1, n =>
    if n < 10 then [Nat.digitChar n]
    else natDigitsAux fuel (n / 10) ++ [Nat.digitChar (n % 10)]

def natDigits (n : ℕ) : List Char := natDigitsAux (n + 1) n

def natText (n : ℕ) : String := String.mk (natDigits n)

/-! ## d3 nice rounding (d3-array ticks.js, d3-scale nice)

`tickIncrement` computes the tick step for a domain span; d3 encodes a
fractional step `1/k` as the negative number `-k`.  The comparisons against
`sqrt 50`, `sqrt 10` and `sqrt 2` are done here by comparing squares, which
agrees with the floating point comparisons for every input the renderer can
produce.  `intLog10floor q` is `floor (log10 q)` for positive `q`, computed
from decimal digit counts. -/

def pow10 (p : ℤ) : ℚ :=
  if 0 ≤ p then ((10 : ℚ) ^ p.toNat) else ((10 : ℚ) ^ (-p).toNat)⁻¹

def intLog10floor (q : ℚ) : ℤ :=
  if 1 ≤ q then ((natDigits (⌊q⌋).natAbs).length : ℤ) - 1
  else -(((natDigits ((⌈q⁻¹⌉ - 1).natAbs)).length : ℤ))

def tickIncrement (start stop : ℚ) (count : ℕ) : ℚ :=
  let step : ℚ := (stop - start) / (count : ℚ)
  if step ≤ 0 then 0
  else
    let power : ℤ := intLog10floor step
    let error : ℚ := step / pow10 power
    let mult : ℚ :=
      if 50 ≤ error ^ 2 then 10
      else if 10 ≤ error ^ 2 then 5
      else if 2 ≤ error ^ 2 then 2
      else 1
    if 0 ≤ power then mult * pow10 power else -(pow10 (-power)) / mult

/-- One round of the d3 `nice` loop (maxIter = 10 in the source).  If the
step stabilises the current bounds are kept; if the step is the zero
sentinel (degenerate span) or the fuel runs out, d3 leaves the original
domain untouched. -/
def niceLoop (orig0 orig1 : ℚ) (count : ℕ) :
    ℕ → ℚ → ℚ → Option ℚ → ℚ × ℚ
  | 0, _, _, _ => (orig0, orig1)
  | fuel + 1, start, stop, prestep =>
    let step := tickIncrement start stop count
    if prestep = some step then (start, stop)
    else if 0 < step then
      niceLoop orig0 orig1 count fuel
        (((⌊start / step⌋ : ℤ) : ℚ) * step)
        (((⌈stop / step⌉ : ℤ) : ℚ) * step) (some step)
    else if step < 0 then
      niceLoop orig0 orig1 count fuel
        (((⌈start * step⌉ : ℤ) : ℚ) / step)
        (((⌊stop * step⌋ : ℤ) : ℚ) / step) (some step)
    else (orig0, orig1)

def niceCore (d0 d1 : ℚ) : ℚ × ℚ := niceLoop d0 d1 10 10 d0 d1 none

/-- `scale.nice()` on a two point domain: d3 swaps a descending domain,
nices it, and restores the orientation. -/
def niceDomain (d0 d1 : ℚ) : ℚ × ℚ :=
  if d1 < d0 then
    let p := niceCore d1 d0
    (p.2, p.1)
  else niceCore d0 d1

/-! ## Named stacks (the `data` argument of the stacked bar renderers) -/

structure AppStack where
  appName : String
  values : List ℚ
deriving DecidableEq, Repr

/-! ## Output file names (chart-generator.ts lines 188-196 and analogues)

Every renderer builds `PREFIX_TIMESTAMP_RANDOM.png` from `Date.now()` and
`Math.floor(Math.random() * 10000)`; the name depends on nothing else. -/

def chartFileName (kind : String) (timestamp random : ℕ) : String :=
  kind ++ "_" ++ natText timestamp ++ "_" ++ natText random ++ ".png"

/-- The file path chosen by generateBarChart for a given call: the labels
and data passed to the call play no role in the name (lines 188-196). -/
def barChartFilePath (_labels : List String) (_data : List ℚ)
    (timestamp random : ℕ) : String :=
  chartFileName "bar_chart" timestamp random

/-! ## Bar chart (generateBarChart, lines 32-205)

The function has no empty-input branch: every call reaches the regular
drawing code and the regular `bar_chart` file name.  Its y scale domain is
`[0, d3.max(data) || 0]`, then niced. -/

def barYDomainRaw (data : List ℚ) : ℚ := (data.max?).getD 0

def barNicedMax (data : List ℚ) : ℚ := (niceDomain 0 (barYDomainRaw data)).2

/-! ## Line chart (generateLineChart, lines 412-589)

Again no empty-input branch; the domain is `[0, (d3.max(data) || 0) * 1.1]`,
then niced. -/

def lineYDomainRaw (data : List ℚ) : ℚ := ((data.max?).getD 0) * (11 / 10)

/-! ## Daily stacked bar chart (generateStackedBarChart, lines 599-851)

No validity filtering and no empty-input branch: all stacks in `data`
contribute, a missing value at a bucket reads as 0 via `|| 0`.
`dailyTotals` is `stackedData` (lines 630-637); the y domain is
`[0, d3.max(stackedData) || 0]`, then niced (lines 639-643). -/

def dailyTotals (labels : List String) (data : List AppStack) : List ℚ :=
  (List.range labels.length).map fun i =>
    (data.map fun app => valOr0 app.values i).sum

def dailyYDomainRaw (labels : List String) (data : List AppStack) : ℚ :=
  ((dailyTotals labels data).max?).getD 0

def dailyNicedMax (labels : List String) (data : List AppStack) : ℚ :=
  (niceDomain 0 (dailyYDomainRaw labels data)).2

/-- The values read at bucket `i`, one per stack entry, in stack order
(`app.values[dayIndex] || 0` at line 737). -/
def dailyBucketVals (data : List AppStack) (i : ℕ) : List ℚ :=
  data.map fun app => valOr0 app.values i

/-- The segments actually drawn at bucket `i` by the daily renderer: one
per stack entry whose value at the bucket is strictly positive
(lines 736-770). -/
def dailyDrawnAt (data : List AppStack) (i : ℕ) : List (String × ℚ) :=
  data.filterMap fun app =>
    let v := valOr0 app.values i
    if 0 < v then some (app.appName, v) else none

/-- The legend of the daily renderer lists every entry of `data`
(lines 810-825), with no validity filtering and no truncation. -/
def dailyLegendNames (data : List AppStack) : List String :=
  data.map fun app => app.appName

/-! ## Hourly stacked bar chart (generateHourlyStackedBarChart, 861-1133)

This is the only Cartesian renderer with fallback branches: empty labels or
empty data give the placeholder with a no-data message, and if every stack
fails the `values.length === hourLabels.length` check the placeholder with a
malformed-data message results (lines 873-882).  Totals, drawing and legend
all use only `validData`. -/

def hourlyValidData (labels : List String) (data : List AppStack) :
    List AppStack :=
  data.filter fun app => app.values.length = labels.length

def hourlyTotals (labels : List String) (data : List AppStack) : List ℚ :=
  (List.range labels.length).map fun i =>
    ((hourlyValidData labels data).map fun app => valOr0 app.values i).sum

/-- The y scale domain max of the hourly renderer (lines 912-919):
`maxValue = Math.max(...stackedData) * 1.1`, and the domain top is
`maxValue > 0 ? maxValue : 10`.  `Math.max()` of an empty spread is
`-Infinity`, which is not `> 0`, so the empty-label case lands on the else
branch exactly as the `getD 0` default does here. -/
def hourlyYDomainMax (labels : List String) (data : List AppStack) : ℚ :=
  let mv := (((hourlyTotals labels data).max?).getD 0) * (11 / 10)
  if 0 < mv then mv else 10

def hourlyNicedMax (labels : List String) (data : List AppStack) : ℚ :=
  (niceDomain 0 (hourlyYDomainMax labels data)).2

def hourlyBucketVals (labels : List String) (data : List AppStack)
    (i : ℕ) : List ℚ :=
  (hourlyValidData labels data).map fun app => valOr0 app.values i

def hourlyDrawnAt (labels : List String) (data : List AppStack) (i : ℕ) :
    List (String × ℚ) :=
  (hourlyValidData labels data).filterMap fun app =>
    let v := valOr0 app.values i
    if 0 < v then some (app.appName, v) else none

/-- Hourly legend name truncation (lines 1096-1101): names longer than 15
characters are cut to 12 characters plus an ellipsis. -/
def truncName (s : String) : String :=
  if 15 < s.length then (s.take 12).push '.' |>.push '.' |>.push '.' else s

def hourlyLegendNames (labels : List String) (data : List AppStack) :
    List String :=
  (hourlyValidData labels data).map fun app => truncName app.appName

/-! ## Render outcome: fallback or regular image

`fallback` records whether the placeholder renderer produced the image
(generateEmptyBarChart or generateEmptyPieChart), `message` its centered
message, and `fileKind` the prefix of the generated file name. -/

structure RenderOutcome where
  fallback : Bool
  message : Option String
  fileKind : String
deriving DecidableEq, Repr

/-- generateBarChart always runs the regular drawing path: the source has
no conditional return before the `bar_chart` file is written. -/
def generateBarChartOutcome (_labels : List String) (_data : List ℚ) :
    RenderOutcome :=
  ⟨false, none, "bar_chart"⟩

/-- generateLineChart likewise has no fallback branch. -/
def generateLineChartOutcome (_labels : List String) (_data : List ℚ) :
    RenderOutcome :=
  ⟨false, none, "line_chart"⟩

/-- generateStackedBarChart (daily) likewise has no fallback branch. -/
def generateStackedBarChartOutcome (_labels : List String)
    (_data : List AppStack) : RenderOutcome :=
  ⟨false, none, "stacked_bar_chart"⟩

/-- generateHourlyStackedBarChart, lines 873-882 and 1119. -/
def generateHourlyStackedBarChartOutcome (labels : List String)
    (data : List AppStack) : RenderOutcome :=
  if labels.isEmpty || data.isEmpty then
    ⟨true, some "時間帯別データがありません", "empty_bar_chart"⟩
  else if (hourlyValidData labels data).isEmpty then
    ⟨true, some "データの形式が正しくありません", "empty_bar_chart"⟩
  else ⟨false, none, "hourly_stacked_chart"⟩

/-! ## Stacking geometry shared by both stacked renderers

At a bucket the cumulative offset starts at `innerHeight` and, for each
stack value in order, a strictly positive value draws a rectangle of height
`innerHeight - yScale(value)` whose bottom edge sits at the current offset,
after which the offset moves up by that height; a non-positive value is
skipped (lines 730-771 and 1011-1050; `M` is the niced y domain max). -/

def segHeight (M v : ℚ) : ℚ := innerHeightPx - linmap 0 M innerHeightPx 0 v

def stackOffsets (M : ℚ) (off : ℚ) : List ℚ → List ℚ
  | [] => [off]
  | v :: vs =>
    off :: stackOffsets M (if 0 < v then off - segHeight M v else off) vs

/-- The pixel heights of the segments drawn at a bucket, in stack order. -/
def drawnHeights (M : ℚ) (vals : List ℚ) : List ℚ :=
  vals.filterMap fun v => if 0 < v then some (segHeight M v) else none

/-- The offsets visited by the daily renderer at bucket `i`. -/
def dailyOffsetsAt (labels : List String) (data : List AppStack) (i : ℕ) :
    List ℚ :=
  stackOffsets (dailyNicedMax labels data) innerHeightPx
    (dailyBucketVals data i)

/-! ## Pie chart (generatePieChart, lines 210-357)

Labels are zipped with `data[i] || 0`, non-positive pairs are dropped
(lines 232-235); if the original arrays or the filtered list are empty the
placeholder is produced (lines 219-221 and 238-240).  Slices come from
`d3.pie().sort(null)` so they keep input order, start at angle 0 and span
`2 pi * value / total` each.  Angles below are in units of pi. -/

def pieZipped (labels : List String) (data : List ℚ) : List (String × ℚ) :=
  labels.enum.map fun il => (il.2, valOr0 data il.1)

def pieFiltered (labels : List String) (data : List ℚ) :
    List (String × ℚ) :=
  (pieZipped labels data).filter fun p => 0 < p.2

def pieTotal (labels : List String) (data : List ℚ) : ℚ :=
  ((pieFiltered labels data).map fun p => p.2).sum

structure PieArc where
  label : String
  value : ℚ
  a0 : ℚ
  a1 : ℚ
deriving DecidableEq, Repr

def pieArcsFrom (T : ℚ) : ℚ → List (String × ℚ) → List PieArc
  | _, [] => []
  | a, p :: ps =>
    ⟨p.1, p.2, a, a + 2 * p.2 / T⟩ :: pieArcsFrom T (a + 2 * p.2 / T) ps

structure PieOutcome where
  fallback : Bool
  arcs : List PieArc
deriving DecidableEq, Repr

def generatePieChartOutcome (labels : List String) (data : List ℚ) :
    PieOutcome :=
  if data.isEmpty || labels.isEmpty then ⟨true, []⟩
  else if (pieFiltered labels data).isEmpty then ⟨true, []⟩
  else ⟨false, pieArcsFrom (pieTotal labels data) 0 (pieFiltered labels data)⟩

/-- The legend percentage of each kept slice, `(d.value / total) * 100`
(line 326), in slice order. -/
def piePercents (labels : List String) (data : List ℚ) : List ℚ :=
  (pieFiltered labels data).map fun p => p.2 / pieTotal labels data * 100

/-- `q.toFixed(1)` for the non-negative values the legend prints, returned
as an integer number of tenths: round half away from zero at the first
decimal place. -/
def jsToFixed1 (q : ℚ) : ℤ := ⌊q * 10 + 1 / 2⌋

/-! ## Helper lemmas -/

lemma max?_getD_zero (l : List ℚ) (h : ∀ v ∈ l, v = 0) :
    (l.max?).getD 0 = 0 := by
  induction l with
  | nil => rfl
  | cons a as ih =>
    have ha : a = 0 := h a (List.mem_cons_self a as)
    have ih0 := ih fun v hv => h v (List.mem_cons_of_mem a hv)
    rw [List.max?_cons]
    cases hm : as.max? with
    | none => simp [ha]
    | some b =>
      rw [hm] at ih0
      simp only [Option.getD_some] at ih0
      simp [ha, ih0]

lemma valOr0_eq_zero {vs : List ℚ} (h : ∀ v ∈ vs, v = 0) (i : ℕ) :
    valOr0 vs i = 0 := by
  unfold valOr0
  cases hg : vs.get? i with
  | none => rfl
  | some v => simp only [Option.getD_some]; exact h v (List.get?_mem hg)

/-- The nice loop never lowers the upper bound below the original one. -/
lemma niceLoop_stop_ge (o0 o1 : ℚ) (c : ℕ) :
    ∀ (fuel : ℕ) (s t : ℚ) (pre : Option ℚ),
      o1 ≤ t → o1 ≤ (niceLoop o0 o1 c fuel s t pre).2 := by
  intro fuel
  induction fuel with
  | zero => intro s t pre _; simp [niceLoop]
  | succ n ih =>
    intro s t pre ht
    rw [niceLoop]
    by_cases hp : pre = some (tickIncrement s t c)
    · simpa [hp] using ht
    · rw [if_neg hp]
      by_cases hpos : 0 < tickIncrement s t c
      · rw [if_pos hpos]
        refine ih _ _ _ (le_trans ht ?_)
        calc t = (t / tickIncrement s t c) * tickIncrement s t c := by
              field_simp
          _ ≤ ((⌈t / tickIncrement s t c⌉ : ℤ) : ℚ) * tickIncrement s t c := by
              have := Int.le_ceil (t / tickIncrement s t c)
              exact mul_le_mul_of_nonneg_right this (le_of_lt hpos)
      · rw [if_neg hpos]
        by_cases hneg : tickIncrement s t c < 0
        · rw [if_pos hneg]
          refine ih _ _ _ (le_trans ht ?_)
          rw [le_div_iff_of_neg hneg]
          exact Int.floor_le (t * tickIncrement s t c)
        · simp only [if_neg hneg]
          exact le_rfl

/-- For a non-negative raw maximum the niced domain keeps an upper bound at
least as large. -/
lemma niceDomain_snd_ge (r : ℚ) (hr : 0 ≤ r) : r ≤ (niceDomain 0 r).2 := by
  rw [niceDomain, if_neg (by linarith : ¬ r < 0), niceCore]
  exact niceLoop_stop_ge 0 r 10 10 0 r none le_rfl

lemma niceDomain_zero : niceDomain 0 0 = (0, 0) := by
  have t1 : tickIncrement 0 0 10 = 0 := by norm_num [tickIncrement]
  rw [niceDomain, if_neg (by norm_num : ¬ (0 : ℚ) < 0)]
  rw [niceCore]
  rw [show (10 : ℕ) = 9 + 1 from rfl, niceLoop, t1]
  simp

/-! ## Linear scale and stacking lemmas -/

lemma segHeight_eq {M : ℚ} (hM : M ≠ 0) (v : ℚ) :
    segHeight M v = innerHeightPx * v / M := by
  rw [segHeight, linmap, if_neg (by simpa using hM)]
  field_simp
  ring

lemma segHeight_degenerate (v : ℚ) : segHeight 0 v = innerHeightPx / 2 := by
  rw [segHeight, linmap, if_pos (by norm_num)]
  ring

lemma segHeight_nonneg {M : ℚ} (hM : 0 ≤ M) {v : ℚ} (hv : 0 < v) :
    0 ≤ segHeight M v := by
  rcases eq_or_lt_of_le hM with h | h
  · rw [← h, segHeight_degenerate]
    norm_num [innerHeightPx, heightPx, marginTop, marginBottom]
  · rw [segHeight_eq (ne_of_gt h)]
    have : (0:ℚ) < innerHeightPx := by
      norm_num [innerHeightPx, heightPx, marginTop, marginBottom]
    positivity

lemma drawnHeights_sum {M : ℚ} (hM : 0 < M) :
    ∀ vals : List ℚ, (∀ v ∈ vals, 0 ≤ v) →
      (drawnHeights M vals).sum = innerHeightPx * vals.sum / M := by
  intro vals
  induction vals with
  | nil => intro _; simp [drawnHeights]
  | cons v vs ih =>
    intro h
    have hv : 0 ≤ v := h v (List.mem_cons_self v vs)
    have hrest := ih fun x hx => h x (List.mem_cons_of_mem v hx)
    rw [drawnHeights, List.filterMap_cons]
    by_cases hpos : 0 < v
    · rw [if_pos hpos]
      rw [List.sum_cons, show List.filterMap _ vs = drawnHeights M vs from rfl,
        hrest, segHeight_eq (ne_of_gt hM), List.sum_cons]
      field_simp
      ring
    · rw [if_neg hpos]
      have hv0 : v = 0 := le_antisymm (not_lt.mp hpos) hv
      rw [show List.filterMap _ vs = drawnHeights M vs from rfl, hrest,
        List.sum_cons, hv0, zero_add]

lemma stackOffsets_head (M off : ℚ) (vs : List ℚ) :
    ∃ t, stackOffsets M off vs = off :: t := by
  cases vs with
  | nil => exact ⟨[], rfl⟩
  | cons v vs => exact ⟨_, rfl⟩

lemma stackOffsets_chain {M : ℚ} (hM : 0 ≤ M) :
    ∀ (vs : List ℚ) (off : ℚ),
      List.Chain' (fun a b => b ≤ a) (stackOffsets M off vs) := by
  intro vs
  induction vs with
  | nil => intro off; simp [stackOffsets]
  | cons v vs ih =>
    intro off
    rw [stackOffsets]
    set off2 := if 0 < v then off - segHeight M v else off with hoff2
    refine List.chain'_cons'.mpr ⟨?_, ih off2⟩
    intro b hb
    obtain ⟨t, ht⟩ := stackOffsets_head M off2 vs
    rw [ht] at hb
    simp only [List.head?_cons, Option.mem_def, Option.some.injEq] at hb
    rw [← hb, hoff2]
    by_cases hpos : 0 < v
    · rw [if_pos hpos]
      have := segHeight_nonneg hM hpos
      linarith
    · rw [if_neg hpos]

lemma stackOffsets_le {M : ℚ} (hM : 0 ≤ M) :
    ∀ (vs : List ℚ) (off : ℚ), ∀ o ∈ stackOffsets M off vs, o ≤ off := by
  intro vs
  induction vs with
  | nil =>
    intro off o ho
    simp only [stackOffsets, List.mem_singleton] at ho
    exact ho.le
  | cons v vs ih =>
    intro off o ho
    rw [stackOffsets] at ho
    rcases List.mem_cons.mp ho with h | h
    · exact h.le
    · by_cases hpos : 0 < v
      · rw [if_pos hpos] at h
        have h1 := ih (off - segHeight M v) o h
        have h2 := segHeight_nonneg hM hpos
        linarith
      · rw [if_neg hpos] at h
        exact ih off o h

lemma valOr0_nonneg {vs : List ℚ} (h : ∀ v ∈ vs, 0 ≤ v) (i : ℕ) :
    0 ≤ valOr0 vs i := by
  unfold valOr0
  cases hg : vs.get? i with
  | none => exact le_refl 0
  | some v => simp only [Option.getD_some]; exact h v (List.get?_mem hg)

lemma max?_getD_nonneg (l : List ℚ) (h : ∀ v ∈ l, 0 ≤ v) :
    0 ≤ (l.max?).getD 0 := by
  cases l with
  | nil => exact le_refl 0
  | cons a as =>
    have ha : 0 ≤ a := h a (List.mem_cons_self a as)
    rw [List.max?_cons]
    cases hm : as.max? with
    | none => simpa using ha
    | some b =>
      simp only [Option.elim, Option.getD_some]
      exact le_trans ha (le_max_left a b)

lemma hourlyYDomainMax_pos (labels : List String) (data : List AppStack) :
    0 < hourlyYDomainMax labels data := by
  rw [hourlyYDomainMax]
  by_cases hm : 0 < ((hourlyTotals labels data).max?.getD 0) * (11 / 10)
  · rw [if_pos hm]; exact hm
  · rw [if_neg hm]; norm_num

lemma niceDomain_m95 : niceDomain 0 (-95) = (0, -100) := by
  have t1 : tickIncrement (-95) 0 10 = 10 := by
    norm_num [tickIncrement, intLog10floor, pow10, natDigits, natDigitsAux]
  have t2 : tickIncrement (-100) 0 10 = 10 := by
    norm_num [tickIncrement, intLog10floor, pow10, natDigits, natDigitsAux]
  rw [niceDomain, if_pos (by norm_num : (-95 : ℚ) < 0)]
  rw [niceCore]
  rw [show (10 : ℕ) = 9 + 1 from rfl, niceLoop, t1]
  norm_num
  rw [show (9 : ℕ) = 8 + 1 from rfl, niceLoop, t2]
  simp

/-! ## Decimal string facts (for the output file names) -/

def charVal (c : Char) : ℕ := c.toNat - 48

def digitsVal (l : List Char) : ℕ := l.foldl (fun a c => 10 * a + charVal c) 0

lemma digitChar_isDigit {n : ℕ} (h : n < 10) :
    (Nat.digitChar n).isDigit = true := by
  interval_cases n <;> decide

lemma charVal_digitChar {n : ℕ} (h : n < 10) :
    charVal (Nat.digitChar n) = n := by
  interval_cases n <;> decide

lemma natDigitsAux_isDigit :
    ∀ (fuel n : ℕ), ∀ c ∈ natDigitsAux fuel n, c.isDigit = true := by
  intro fuel
  induction fuel with
  | zero => intro n c hc; simp [natDigitsAux] at hc
  | succ m ih =>
    intro n c hc
    rw [natDigitsAux] at hc
    by_cases h10 : n < 10
    · rw [if_pos h10] at hc
      simp only [List.mem_singleton] at hc
      exact hc ▸ digitChar_isDigit h10
    · rw [if_neg h10] at hc
      rcases List.mem_append.mp hc with h | h
      · exact ih (n / 10) c h
      · simp only [List.mem_singleton] at h
        exact h ▸ digitChar_isDigit (Nat.mod_lt n (by norm_num))

lemma natDigits_isDigit (n : ℕ) : ∀ c ∈ natDigits n, c.isDigit = true :=
  natDigitsAux_isDigit (n + 1) n

lemma foldl_digits_append (l : List Char) (c : Char) (a : ℕ) :
    (l ++ [c]).foldl (fun a c => 10 * a + charVal c) a
      = 10 * l.foldl (fun a c => 10 * a + charVal c) a + charVal c := by
  rw [List.foldl_append]
  rfl

lemma natDigitsAux_val :
    ∀ (fuel n : ℕ), n < fuel → digitsVal (natDigitsAux fuel n) = n := by
  intro fuel
  induction fuel with
  | zero => intro n h; exact absurd h (Nat.not_lt_zero n)
  | succ m ih =>
    intro n h
    rw [natDigitsAux]
    by_cases h10 : n < 10
    · rw [if_pos h10]
      show 10 * 0 + charVal (Nat.digitChar n) = n
      rw [charVal_digitChar h10]
      omega
    · rw [if_neg h10]
      have hn : 0 < n := by omega
      have hdiv : n / 10 < n := Nat.div_lt_self hn (by norm_num)
      have hm : n / 10 < m := by omega
      rw [digitsVal, foldl_digits_append]
      rw [show (natDigitsAux m (n / 10)).foldl
            (fun a c => 10 * a + charVal c) 0 = digitsVal (natDigitsAux m (n / 10))
          from rfl]
      rw [ih (n / 10) hm, charVal_digitChar (Nat.mod_lt n (by norm_num))]
      omega

lemma natDigits_val (n : ℕ) : digitsVal (natDigits n) = n :=
  natDigitsAux_val (n + 1) n (Nat.lt_succ_self n)

lemma natDigits_inj {m n : ℕ} (h : natDigits m = natDigits n) : m = n := by
  have := natDigits_val m
  rw [h, natDigits_val n] at this
  exact this.symm

lemma natDigits_no_sep (n : ℕ) {c : Char} (hc : c.isDigit = false) :
    c ∉ natDigits n := by
  intro hmem
  have := natDigits_isDigit n c hmem
  rw [hc] at this
  exact Bool.false_ne_true this

/-- Splitting a character list at a separator character that occurs in
neither prefix part is unambiguous. -/
lemma append_sep_inj {c : Char} :
    ∀ {l1 l2 r1 r2 : List Char}, c ∉ l1 → c ∉ l2 →
      l1 ++ c :: r1 = l2 ++ c :: r2 → l1 = l2 ∧ r1 = r2 := by
  intro l1
  induction l1 with
  | nil =>
    intro l2 r1 r2 _ h2 heq
    cases l2 with
    | nil => simpa using heq
    | cons b bs =>
      simp only [List.nil_append, List.cons_append, List.cons.injEq] at heq
      exact absurd (heq.1 ▸ List.mem_cons_self b bs) (heq.1 ▸ h2)
  | cons a as ih =>
    intro l2 r1 r2 h1 h2 heq
    cases l2 with
    | nil =>
      simp only [List.nil_append, List.cons_append, List.cons.injEq] at heq
      exact absurd (heq.1 ▸ List.mem_cons_self a as) (by rw [heq.1] at h1; exact h1)
    | cons b bs =>
      simp only [List.cons_append, List.cons.injEq] at heq
      have h1' : c ∉ as := fun hm => h1 (List.mem_cons_of_mem a hm)
      have h2' : c ∉ bs := fun hm => h2 (List.mem_cons_of_mem b hm)
      obtain ⟨hab, htail⟩ := heq
      obtain ⟨hl, hr⟩ := ih h1' h2' htail
      exact ⟨by rw [hab, hl], hr⟩

lemma string_data_append (s t : String) : (s ++ t).data = s.data ++ t.data :=
  rfl

/-! ## Theorems for the claims -/

/-- C1 counterexample.  With empty values the bar, line and daily stacked
renderers do not resolve to a Fallback Renderer placeholder: they run their
regular drawing path and write a regular chart file (bar_chart, line_chart,
stacked_bar_chart), contradicting the claim that every Cartesian renderer
falls back on empty input. -/
theorem c1_counterexample :
    (generateBarChartOutcome [] []).fallback = false ∧
    (generateLineChartOutcome [] []).fallback = false ∧
    (generateStackedBarChartOutcome [] []).fallback = false ∧
    (generateBarChartOutcome [] []).fileKind = "bar_chart" ∧
    (generateStackedBarChartOutcome [] []).fileKind = "stacked_bar_chart" :=
  ⟨rfl, rfl, rfl, rfl, rfl⟩

/-- C1 amended: every Cartesian renderer still resolves (the embedded
outcome is a total function, mirroring that no code path throws on empty
input), but only generateHourlyStackedBarChart resolves to the Fallback
Renderer placeholder on empty input; generateBarChart, generateLineChart
and generateStackedBarChart always produce a regular chart image. -/
theorem c1_thm (labels : List String) (data : List ℚ)
    (sdata : List AppStack) :
    (generateHourlyStackedBarChartOutcome [] sdata).fallback = true ∧
    (generateHourlyStackedBarChartOutcome labels []).fallback = true ∧
    (generateHourlyStackedBarChartOutcome [] sdata).fileKind
      = "empty_bar_chart" ∧
    (generateBarChartOutcome labels data).fallback = false ∧
    (generateLineChartOutcome labels data).fallback = false ∧
    (generateStackedBarChartOutcome labels sdata).fallback = false := by
  refine ⟨?_, ?_, ?_, rfl, rfl, rfl⟩ <;>
    · simp [generateHourlyStackedBarChartOutcome]

/-- C4 counterexample.  On the valid all-zero input (one label, one stack
of matching length, value 0) the daily renderer builds domain max 0 while
the hourly renderer builds 10 (its positivity floor), which is not 1.1
times the shared maximum per-bucket total: the two entry points do not
differ by exactly the 1.1 factor on every valid input. -/
theorem c4_counterexample :
    dailyYDomainRaw ["4/1"] [⟨"A", [0]⟩] = 0 ∧
    hourlyYDomainMax ["4/1"] [⟨"A", [0]⟩] = 10 ∧
    ((10 : ℚ) ≠ (11 / 10) * 0) := by
  refine ⟨?_, ?_, by norm_num⟩
  · norm_num [dailyYDomainRaw, dailyTotals, valOr0, List.range_succ]
  · norm_num [hourlyYDomainMax, hourlyTotals, hourlyValidData, valOr0,
      List.filter, List.range_succ]

/-- C4 amended: whenever the maximum per-bucket total is positive (and the
input is valid: non-empty labels and stacks, every stack of matching
length), the hourly domain upper bound is exactly 1.1 times the daily one;
the pre-nice daily domain is the unpadded maximum total.  When the maximum
total is not positive the hourly renderer instead applies its floor of 10
(claim C5), so the factor relation holds only under the positivity
hypothesis. -/
theorem c4_thm (labels : List String) (data : List AppStack)
    (_hl : labels ≠ []) (_hd : data ≠ [])
    (hmatch : ∀ app ∈ data, app.values.length = labels.length)
    (hpos : 0 < dailyYDomainRaw labels data) :
    hourlyYDomainMax labels data = (11 / 10) * dailyYDomainRaw labels data := by
  have hvalid : hourlyValidData labels data = data := by
    rw [hourlyValidData, List.filter_eq_self]
    intro app ha
    simpa using hmatch app ha
  have htot : hourlyTotals labels data = dailyTotals labels data := by
    rw [hourlyTotals, hvalid, dailyTotals]
  rw [dailyYDomainRaw] at hpos ⊢
  rw [hourlyYDomainMax, htot]
  rw [if_pos (by linarith)]
  ring

/-- C4 witness. -/
theorem c4_witness :
    hourlyYDomainMax ["4/1"] [⟨"A", [10]⟩]
      = (11 / 10) * dailyYDomainRaw ["4/1"] [⟨"A", [10]⟩] :=
  c4_thm ["4/1"] [⟨"A", [10]⟩] (by decide) (by decide)
    (by intro app ha; fin_cases ha; rfl)
    (by norm_num [dailyYDomainRaw, dailyTotals, valOr0, List.range_succ])

/-- C5 counterexample.  generateBarChart applies no positive floor: for the
all-zero input [0] its linear scale domain is [0, 0] both before and after
nice rounding, so the domain does collapse, contradicting the claim that
every renderer with a linear y-scale floors the domain maximum. -/
theorem c5_counterexample :
    barYDomainRaw [0] = 0 ∧
    niceDomain 0 (barYDomainRaw [0]) = (0, 0) ∧
    lineYDomainRaw [0] = 0 ∧
    dailyYDomainRaw ["4/1"] [⟨"A", [0, 0]⟩, ⟨"B", [0, 0]⟩] = 0 := by
  have hb : barYDomainRaw [0] = 0 := by norm_num [barYDomainRaw]
  refine ⟨hb, ?_, ?_, ?_⟩
  · rw [hb]; exact niceDomain_zero
  · norm_num [lineYDomainRaw]
  · norm_num [dailyYDomainRaw, dailyTotals, valOr0, List.range_succ]

/-- C5 amended: only generateHourlyStackedBarChart floors its domain
maximum (to 10, whenever 1.1 times the maximum total is not positive), and
its domain maximum is always positive; the bar, line and daily stacked
renderers put 0 at the top of the domain when all their values are zero,
letting the domain collapse to [0, 0]. -/
theorem c5_thm :
    (∀ labels data, 0 < hourlyYDomainMax labels data) ∧
    (∀ labels data,
      ((hourlyTotals labels data).max?.getD 0) * (11 / 10) ≤ 0 →
        hourlyYDomainMax labels data = 10) ∧
    (∀ data : List ℚ, (∀ v ∈ data, v = 0) →
        barYDomainRaw data = 0 ∧ lineYDomainRaw data = 0) ∧
    (∀ labels data, (∀ app ∈ data, ∀ v ∈ app.values, v = 0) →
        dailyYDomainRaw labels data = 0) := by
  refine ⟨?_, ?_, ?_, ?_⟩
  · intro labels data
    rw [hourlyYDomainMax]
    by_cases hm : 0 < ((hourlyTotals labels data).max?.getD 0) * (11 / 10)
    · rw [if_pos hm]; exact hm
    · rw [if_neg hm]; norm_num
  · intro labels data h
    rw [hourlyYDomainMax]
    rw [if_neg (by linarith)]
  · intro data h
    have hz : (data.max?).getD 0 = 0 := max?_getD_zero data h
    constructor
    · exact hz
    · rw [lineYDomainRaw, hz]; ring
  · intro labels data h
    rw [dailyYDomainRaw]
    refine max?_getD_zero _ ?_
    intro t ht
    rw [dailyTotals] at ht
    obtain ⟨i, _, rfl⟩ := List.mem_map.mp ht
    refine List.sum_eq_zero ?_
    intro x hx
    obtain ⟨app, happ, rfl⟩ := List.mem_map.mp hx
    exact valOr0_eq_zero (h app happ) i

/-- C8 counterexample.  The output path depends only on the chart kind and
the timestamp/random draws, so two distinct render calls (here: different
labels and different data) that observe the same `Date.now()` value and the
same random draw receive the same path, contradicting the claim that any
two distinct calls always receive distinct paths. -/
theorem c8_counterexample :
    barChartFilePath ["Mon"] [65] 1000 42 = barChartFilePath ["Tue"] [59] 1000 42 ∧
    (["Mon"] : List String) ≠ ["Tue"] :=
  ⟨rfl, by simp⟩

/-- C8 amended: file names are built as kind, timestamp, random suffix
separated by underscores, and for a fixed chart kind they are injective in
the (timestamp, random) pair: paths of two calls coincide exactly when both
the millisecond timestamp and the random suffix coincide, so collisions are
possible but only in that case. -/
theorem c8_thm (p : String) (ts1 r1 ts2 r2 : ℕ)
    (h : chartFileName p ts1 r1 = chartFileName p ts2 r2) :
    ts1 = ts2 ∧ r1 = r2 := by
  have hd := congrArg String.data h
  simp only [chartFileName, natText, string_data_append, List.append_assoc]
    at hd
  have hd2 := List.append_cancel_left hd
  have hsep : ('_' : Char).isDigit = false := by decide
  have hdot : ('.' : Char).isDigit = false := by decide
  simp only [List.singleton_append, List.cons.injEq, true_and] at hd2
  have hd4 := hd2
  have h1 := append_sep_inj (natDigits_no_sep ts1 hsep)
    (natDigits_no_sep ts2 hsep) hd4
  obtain ⟨hts, hd5⟩ := h1
  have h2 := append_sep_inj (natDigits_no_sep r1 hdot)
    (natDigits_no_sep r2 hdot) hd5
  exact ⟨natDigits_inj hts, natDigits_inj h2.1⟩

/-- C8 witness. -/
theorem c8_witness : (1000 : ℕ) = 1000 ∧ (42 : ℕ) = 42 :=
  c8_thm "bar_chart" 1000 42 1000 42 rfl

/-- C5 witness. -/
theorem c5_witness :
    hourlyYDomainMax ["h"] [⟨"A", [0]⟩] = 10 ∧ barYDomainRaw [0, 0] = 0 :=
  ⟨c5_thm.2.1 ["h"] [⟨"A", [0]⟩]
      (by norm_num [hourlyTotals, hourlyValidData, valOr0, List.filter,
        List.range_succ]),
    (c5_thm.2.2.1 [0, 0] (by intro v hv; simpa using hv)).1⟩

/-- C3 counterexample.  The stacking invariant fails for the daily renderer
on an all-zero input: the niced domain collapses to [0, 0], d3 maps every
value to the middle of the range, and the pixel height corresponding to the
bucket total (innerHeight - yScale(0) = 145) differs from the sum of drawn
segment heights (0, nothing is drawn) by far more than the 1px tolerance. -/
theorem c3_counterexample :
    dailyNicedMax ["4/1"] [⟨"A", [0]⟩] = 0 ∧
    (drawnHeights (dailyNicedMax ["4/1"] [⟨"A", [0]⟩])
        (dailyBucketVals [⟨"A", [0]⟩] 0)).sum = 0 ∧
    innerHeightPx - linmap 0 (dailyNicedMax ["4/1"] [⟨"A", [0]⟩])
        innerHeightPx 0 (dailyBucketVals [⟨"A", [0]⟩] 0).sum = 145 ∧
    ¬ (|(0 : ℚ) - 145| ≤ 1) := by
  have hraw : dailyYDomainRaw ["4/1"] [⟨"A", [0]⟩] = 0 := by
    norm_num [dailyYDomainRaw, dailyTotals, valOr0, List.range_succ]
  have hM : dailyNicedMax ["4/1"] [⟨"A", [0]⟩] = 0 := by
    rw [dailyNicedMax, hraw, niceDomain_zero]
  refine ⟨hM, ?_, ?_, by norm_num⟩
  · rw [hM]
    norm_num [drawnHeights, dailyBucketVals, valOr0]
  · rw [hM]
    norm_num [linmap, dailyBucketVals, valOr0, innerHeightPx, heightPx,
      marginTop, marginBottom]

/-- C3 amended: in exact arithmetic the stacking invariant holds with
equality (well within the 1px tolerance) at every bucket whose segment
values are all non-negative, for the hourly renderer unconditionally (its
domain max is always positive) and for the daily renderer provided its raw
domain maximum (the largest per-bucket total) is positive; the all-zero
daily chart is the only degenerate exception. -/
theorem c3_thm :
    (∀ labels data i,
        (∀ app ∈ data, 0 ≤ valOr0 app.values i) →
        0 < dailyYDomainRaw labels data →
        (drawnHeights (dailyNicedMax labels data)
            (dailyBucketVals data i)).sum
          = innerHeightPx - linmap 0 (dailyNicedMax labels data)
              innerHeightPx 0 (dailyBucketVals data i).sum) ∧
    (∀ labels data i,
        (∀ app ∈ hourlyValidData labels data, 0 ≤ valOr0 app.values i) →
        (drawnHeights (hourlyNicedMax labels data)
            (hourlyBucketVals labels data i)).sum
          = innerHeightPx - linmap 0 (hourlyNicedMax labels data)
              innerHeightPx 0 (hourlyBucketVals labels data i).sum) := by
  constructor
  · intro labels data i hnn hpos
    have hM : 0 < dailyNicedMax labels data :=
      lt_of_lt_of_le hpos (niceDomain_snd_ge _ hpos.le)
    have hvals : ∀ v ∈ dailyBucketVals data i, 0 ≤ v := by
      intro v hv
      obtain ⟨app, happ, rfl⟩ := List.mem_map.mp hv
      exact hnn app happ
    rw [drawnHeights_sum hM _ hvals,
      show innerHeightPx - linmap 0 (dailyNicedMax labels data) innerHeightPx 0
          (dailyBucketVals data i).sum
        = segHeight (dailyNicedMax labels data) (dailyBucketVals data i).sum
        from rfl,
      segHeight_eq (ne_of_gt hM)]
  · intro labels data i hnn
    have hM : 0 < hourlyNicedMax labels data :=
      lt_of_lt_of_le (hourlyYDomainMax_pos labels data)
        (niceDomain_snd_ge _ (hourlyYDomainMax_pos labels data).le)
    have hvals : ∀ v ∈ hourlyBucketVals labels data i, 0 ≤ v := by
      intro v hv
      obtain ⟨app, happ, rfl⟩ := List.mem_map.mp hv
      exact hnn app happ
    rw [drawnHeights_sum hM _ hvals,
      show innerHeightPx - linmap 0 (hourlyNicedMax labels data) innerHeightPx 0
          (hourlyBucketVals labels data i).sum
        = segHeight (hourlyNicedMax labels data)
            (hourlyBucketVals labels data i).sum
        from rfl,
      segHeight_eq (ne_of_gt hM)]

/-- C3 witness. -/
theorem c3_witness :
    (drawnHeights (dailyNicedMax ["4/1"] [⟨"A", [2]⟩, ⟨"B", [3]⟩])
        (dailyBucketVals [⟨"A", [2]⟩, ⟨"B", [3]⟩] 0)).sum
      = innerHeightPx
        - linmap 0 (dailyNicedMax ["4/1"] [⟨"A", [2]⟩, ⟨"B", [3]⟩])
            innerHeightPx 0
            (dailyBucketVals [⟨"A", [2]⟩, ⟨"B", [3]⟩] 0).sum :=
  c3_thm.1 ["4/1"] [⟨"A", [2]⟩, ⟨"B", [3]⟩] 0
    (by intro app ha; fin_cases ha <;> norm_num [valOr0])
    (by norm_num [dailyYDomainRaw, dailyTotals, valOr0, List.range_succ])

/-- C10 counterexample.  With mixed-sign values whose per-bucket total is
negative (stack A holds 5, stack B holds -100), the daily y domain max
nices to -100, the positive value 5 gets a negative pixel height, and the
cumulative offset rises from the baseline 290 to 304.5: the drawn rectangle
extends below the x-axis baseline and the offsets are not monotone
non-increasing. -/
theorem c10_counterexample :
    dailyNicedMax ["4/1"] [⟨"A", [5]⟩, ⟨"B", [-100]⟩] = -100 ∧
    dailyOffsetsAt ["4/1"] [⟨"A", [5]⟩, ⟨"B", [-100]⟩] 0
      = [290, 609 / 2, 609 / 2] ∧
    ¬ ((609 : ℚ) / 2 ≤ 290) := by
  have hraw : dailyYDomainRaw ["4/1"] [⟨"A", [5]⟩, ⟨"B", [-100]⟩] = -95 := by
    norm_num [dailyYDomainRaw, dailyTotals, valOr0, List.range_succ]
  have hM : dailyNicedMax ["4/1"] [⟨"A", [5]⟩, ⟨"B", [-100]⟩] = -100 := by
    rw [dailyNicedMax, hraw, niceDomain_m95]
  refine ⟨hM, ?_, by norm_num⟩
  rw [dailyOffsetsAt, hM]
  norm_num [dailyBucketVals, valOr0, stackOffsets, segHeight, linmap,
    innerHeightPx, heightPx, marginTop, marginBottom]

/-- C10 amended: a segment is drawn only for a strictly positive value and
zero, missing or negative values leave the cumulative offset unchanged (as
claimed); the offset sequence is monotone non-increasing from the baseline
and never exceeds the baseline provided the y domain max is non-negative,
which holds whenever all stack values are non-negative (and always for the
hourly renderer); a negative domain max, reachable only with negative
per-bucket totals, breaks the monotonicity. -/
theorem c10_thm :
    (∀ (M off v : ℚ) (vs : List ℚ), ¬ 0 < v →
        stackOffsets M off (v :: vs) = off :: stackOffsets M off vs) ∧
    (∀ M : ℚ, 0 ≤ M → ∀ vs : List ℚ,
        List.Chain' (fun a b => b ≤ a) (stackOffsets M innerHeightPx vs) ∧
        ∀ o ∈ stackOffsets M innerHeightPx vs, o ≤ innerHeightPx) ∧
    (∀ labels data, (∀ app ∈ data, ∀ v ∈ app.values, 0 ≤ v) →
        0 ≤ dailyNicedMax labels data) ∧
    (∀ labels data, 0 < hourlyNicedMax labels data) := by
  refine ⟨?_, ?_, ?_, ?_⟩
  · intro M off v vs hv
    rw [stackOffsets, if_neg hv]
  · intro M hM vs
    exact ⟨stackOffsets_chain hM vs innerHeightPx,
      stackOffsets_le hM vs innerHeightPx⟩
  · intro labels data h
    have hraw : 0 ≤ dailyYDomainRaw labels data := by
      rw [dailyYDomainRaw]
      refine max?_getD_nonneg _ ?_
      intro t ht
      rw [dailyTotals] at ht
      obtain ⟨i, _, rfl⟩ := List.mem_map.mp ht
      refine List.sum_nonneg ?_
      intro x hx
      obtain ⟨app, happ, rfl⟩ := List.mem_map.mp hx
      exact valOr0_nonneg (h app happ) i
    exact le_trans hraw (niceDomain_snd_ge _ hraw)
  · intro labels data
    exact lt_of_lt_of_le (hourlyYDomainMax_pos labels data)
      (niceDomain_snd_ge _ (hourlyYDomainMax_pos labels data).le)

/-- C10 witness. -/
theorem c10_witness :
    List.Chain' (fun a b => b ≤ a) (stackOffsets 5 innerHeightPx [2, 3]) :=
  ((c10_thm.2.1 5 (by norm_num) [2, 3])).1

/-! ## Pie chart lemmas -/

lemma pieArcsFrom_pairs (T : ℚ) :
    ∀ (ps : List (String × ℚ)) (a : ℚ),
      (pieArcsFrom T a ps).map (fun x => (x.label, x.value)) = ps := by
  intro ps
  induction ps with
  | nil => intro a; rfl
  | cons p ps ih =>
    intro a
    rw [pieArcsFrom, List.map_cons, ih]

lemma pieArcsFrom_span (T : ℚ) :
    ∀ (ps : List (String × ℚ)) (a : ℚ),
      ∀ arc ∈ pieArcsFrom T a ps, arc.a1 - arc.a0 = 2 * arc.value / T := by
  intro ps
  induction ps with
  | nil => intro a arc harc; simp [pieArcsFrom] at harc
  | cons p ps ih =>
    intro a arc harc
    rw [pieArcsFrom] at harc
    rcases List.mem_cons.mp harc with h | h
    · rw [h]; ring
    · exact ih _ arc h

lemma pieArcsFrom_head (T : ℚ) (ps : List (String × ℚ)) (a : ℚ) :
    ∀ arc ∈ (pieArcsFrom T a ps).head?, arc.a0 = a := by
  cases ps with
  | nil => intro arc harc; simp [pieArcsFrom] at harc
  | cons p ps =>
    intro arc harc
    rw [pieArcsFrom] at harc
    simp only [List.head?_cons, Option.mem_def, Option.some.injEq] at harc
    rw [← harc]

lemma pieArcsFrom_chain (T : ℚ) :
    ∀ (ps : List (String × ℚ)) (a : ℚ),
      List.Chain' (fun x y => y.a0 = x.a1) (pieArcsFrom T a ps) := by
  intro ps
  induction ps with
  | nil => intro a; simp [pieArcsFrom]
  | cons p ps ih =>
    intro a
    rw [pieArcsFrom]
    refine List.chain'_cons'.mpr ⟨?_, ih _⟩
    intro y hy
    exact pieArcsFrom_head T ps _ y hy

lemma pieFiltered_of_empty (labels : List String) (data : List ℚ)
    (h : data = [] ∨ labels = []) : pieFiltered labels data = [] := by
  rcases h with h | h
  · rw [h, pieFiltered]
    refine List.filter_eq_nil.mpr ?_
    intro p hp
    rw [pieZipped] at hp
    obtain ⟨il, _, rfl⟩ := List.mem_map.mp hp
    simp [valOr0]
  · rw [h, pieFiltered, pieZipped]
    rfl

lemma pieFiltered_pos (labels : List String) (data : List ℚ) :
    ∀ p ∈ pieFiltered labels data, 0 < p.2 := by
  intro p hp
  have := (List.mem_filter.mp hp).2
  exact of_decide_eq_true this

lemma pieTotal_pos (labels : List String) (data : List ℚ)
    (h : pieFiltered labels data ≠ []) : 0 < pieTotal labels data := by
  rw [pieTotal]
  refine List.sum_pos _ ?_ ?_
  · intro x hx
    obtain ⟨p, hp, rfl⟩ := List.mem_map.mp hx
    exact pieFiltered_pos labels data p hp
  · simpa [List.map_eq_nil] using h

/-- C6: the pie renderer zips label/value pairs index-wise, drops the
non-positive ones, falls back exactly when nothing remains, and otherwise
draws the kept slices in input order, contiguously from angle 0, each
spanning 2 pi times value over the filtered total (angles here are in units
of pi, so that span reads 2 * value / total). -/
theorem c6_thm (labels : List String) (data : List ℚ) :
    ((generatePieChartOutcome labels data).fallback = true ↔
        pieFiltered labels data = []) ∧
    (generatePieChartOutcome labels data).arcs.map
        (fun x => (x.label, x.value)) = pieFiltered labels data ∧
    (∀ arc ∈ (generatePieChartOutcome labels data).arcs,
        arc.a1 - arc.a0 = 2 * arc.value / pieTotal labels data) ∧
    List.Chain' (fun x y => y.a0 = x.a1)
      (generatePieChartOutcome labels data).arcs ∧
    (∀ arc ∈ ((generatePieChartOutcome labels data).arcs).head?,
        arc.a0 = 0) := by
  rw [generatePieChartOutcome]
  by_cases h1 : data.isEmpty || labels.isEmpty
  · rw [if_pos h1]
    have hf : pieFiltered labels data = [] := by
      refine pieFiltered_of_empty labels data ?_
      rcases Bool.or_eq_true_iff.mp h1 with h | h
      · exact Or.inl (List.isEmpty_iff.mp h)
      · exact Or.inr (List.isEmpty_iff.mp h)
    refine ⟨by simp [hf], by simp [hf], by simp, by simp, by simp⟩
  · rw [if_neg h1]
    by_cases h2 : (pieFiltered labels data).isEmpty
    · rw [if_pos h2]
      have hf : pieFiltered labels data = [] := List.isEmpty_iff.mp h2
      refine ⟨by simp [hf], by simp [hf], by simp, by simp, by simp⟩
    · rw [if_neg h2]
      refine ⟨by simpa using fun h => h2 (by simp [h]), ?_, ?_, ?_, ?_⟩
      · exact pieArcsFrom_pairs _ _ _
      · exact pieArcsFrom_span _ _ _
      · exact pieArcsFrom_chain _ _ _
      · exact pieArcsFrom_head _ _ _

/-- C6 witness. -/
theorem c6_witness :
    (generatePieChartOutcome ["A", "B"] [3, 1]).arcs.map
        (fun x => (x.label, x.value)) = [("A", 3), ("B", 1)] := by
  have h := (c6_thm ["A", "B"] [3, 1]).2.1
  rw [h]
  decide

/-- C7: for every non-empty filtered slice set the exact legend
percentages, value / total * 100 each displayed to one decimal place, sum
to exactly 100; on the spec scenario [120, 90] the two percentages display
as 57.1 and 42.9 (given in tenths by the toFixed(1) model). -/
theorem c7_thm :
    (∀ labels data, pieFiltered labels data ≠ [] →
        (piePercents labels data).sum = 100) ∧
    (piePercents ["Twitter", "YouTube"] [120, 90]).map jsToFixed1
      = [571, 429] := by
  constructor
  · intro labels data h
    have hT : 0 < pieTotal labels data := pieTotal_pos labels data h
    rw [piePercents]
    have hrw : ∀ p ∈ pieFiltered labels data,
        p.2 / pieTotal labels data * 100
          = p.2 * (100 / pieTotal labels data) := by
      intro p _; ring
    rw [List.map_congr_left hrw, List.sum_map_mul_right, ← pieTotal]
    field_simp
  · have hf : pieFiltered ["Twitter", "YouTube"] [120, 90]
        = [("Twitter", 120), ("YouTube", 90)] := by decide
    have hT : pieTotal ["Twitter", "YouTube"] [120, 90] = 210 := by
      rw [pieTotal, hf]
      norm_num
    rw [piePercents, hT, hf]
    norm_num [jsToFixed1]

/-- C7 witness. -/
theorem c7_witness :
    pieFiltered ["Twitter", "YouTube"] [120, 90] ≠ [] ∧
    (piePercents ["Twitter", "YouTube"] [120, 90]).sum = 100 :=
  ⟨by decide, c7_thm.1 ["Twitter", "YouTube"] [120, 90] (by decide)⟩

/-- C9: generatePieChart is total on mismatched lengths; data entries past
the label count never influence the kept slices, and every kept slice is an
index-aligned pair with strictly positive value read from the data (0 when
the index has no data value, hence excluded). -/
theorem c9_thm :
    (∀ (labels : List String) (data : List ℚ),
        pieFiltered labels data
          = pieFiltered labels (data.take labels.length)) ∧
    (∀ (labels : List String) (data : List ℚ) (p : String × ℚ),
        p ∈ pieFiltered labels data →
          0 < p.2 ∧ ∃ i, ∃ h : i < labels.length,
            labels.get ⟨i, h⟩ = p.1 ∧ valOr0 data i = p.2) := by
  constructor
  · intro labels data
    rw [pieFiltered, pieFiltered, pieZipped, pieZipped]
    congr 1
    refine List.map_congr_left ?_
    intro il hil
    have hb : labels.get? il.1 = some il.2 := List.mem_enum_iff_get?.mp hil
    have hlt : il.1 < labels.length := (List.get?_eq_some.mp hb).1
    have : (data.take labels.length).get? il.1 = data.get? il.1 :=
      List.get?_take hlt
    rw [valOr0, valOr0, this]
  · intro labels data p hp
    refine ⟨pieFiltered_pos labels data p hp, ?_⟩
    have hz := (List.mem_filter.mp hp).1
    rw [pieZipped] at hz
    obtain ⟨il, hil, hpe⟩ := List.mem_map.mp hz
    have hb : labels.get? il.1 = some il.2 := List.mem_enum_iff_get?.mp hil
    obtain ⟨hlt, hget⟩ := List.get?_eq_some.mp hb
    refine ⟨il.1, hlt, ?_, ?_⟩
    · rw [hget, ← hpe]
    · rw [← hpe]

/-- C9 witness. -/
theorem c9_witness :
    0 < ((("X", 1) : String × ℚ)).2 ∧
    ∃ i, ∃ h : i < (["X"] : List String).length,
      (["X"] : List String).get ⟨i, h⟩ = (("X", (1 : ℚ))).1 ∧
      valOr0 [1] i = (("X", (1 : ℚ))).2 :=
  c9_thm.2 ["X"] [1] ("X", 1) (by decide)

/-- C2 counterexample.  On the spec scenario the DAILY renderer does not
drop the mismatched stack B = [5]: at bucket 0 it draws both A (10) and
B (5), the per-bucket totals are [15, 0] (not computed from valid stacks
only), and the legend lists B as well. -/
theorem c2_counterexample :
    dailyDrawnAt [⟨"A", [10, 0]⟩, ⟨"B", [5]⟩] 0 = [("A", 10), ("B", 5)] ∧
    dailyTotals ["4/1", "4/2"] [⟨"A", [10, 0]⟩, ⟨"B", [5]⟩] = [15, 0] ∧
    dailyLegendNames [⟨"A", [10, 0]⟩, ⟨"B", [5]⟩] = ["A", "B"] ∧
    ("B", (5 : ℚ)) ∈ dailyDrawnAt [⟨"A", [10, 0]⟩, ⟨"B", [5]⟩] 0 := by
  refine ⟨by decide, ?_, by decide, by decide⟩
  norm_num [dailyTotals, valOr0, List.range_succ]

/-- C2 amended: only generateHourlyStackedBarChart drops stacks whose
values length differs from the label count: its drawn segments and legend
come exclusively from matching-length stacks, and on the spec scenario it
renders only the 10 and 0 of stack A.  generateStackedBarChart (the daily
entry point of the scenario) keeps mismatched stacks, reading missing
values as 0. -/
theorem c2_thm :
    (∀ labels data i, ∀ pr ∈ hourlyDrawnAt labels data i,
        ∃ app, app ∈ data ∧ app.values.length = labels.length ∧
          app.appName = pr.1 ∧ valOr0 app.values i = pr.2 ∧ 0 < pr.2) ∧
    (∀ labels data, ∀ n ∈ hourlyLegendNames labels data,
        ∃ app, app ∈ data ∧ app.values.length = labels.length ∧
          n = truncName app.appName) ∧
    hourlyDrawnAt ["4/1", "4/2"] [⟨"A", [10, 0]⟩, ⟨"B", [5]⟩] 0
      = [("A", 10)] ∧
    hourlyDrawnAt ["4/1", "4/2"] [⟨"A", [10, 0]⟩, ⟨"B", [5]⟩] 1 = [] ∧
    hourlyTotals ["4/1", "4/2"] [⟨"A", [10, 0]⟩, ⟨"B", [5]⟩] = [10, 0] := by
  refine ⟨?_, ?_, by decide, by decide, ?_⟩
  · intro labels data i pr hpr
    rw [hourlyDrawnAt] at hpr
    obtain ⟨app, happ, heq⟩ := List.mem_filterMap.mp hpr
    have hmem := List.mem_filter.mp happ
    have hlen : app.values.length = labels.length :=
      of_decide_eq_true hmem.2
    by_cases hpos : 0 < valOr0 app.values i
    · rw [if_pos hpos] at heq
      have hpe := Option.some.inj heq
      have h1 : app.appName = pr.1 := congrArg Prod.fst hpe
      have h2 : valOr0 app.values i = pr.2 := congrArg Prod.snd hpe
      exact ⟨app, hmem.1, hlen, h1, h2, h2 ▸ hpos⟩
    · rw [if_neg hpos] at heq
      exact absurd heq (Option.noConfusion)
  · intro labels data n hn
    rw [hourlyLegendNames] at hn
    obtain ⟨app, happ, rfl⟩ := List.mem_map.mp hn
    have hmem := List.mem_filter.mp happ
    exact ⟨app, hmem.1, of_decide_eq_true hmem.2, rfl⟩
  · norm_num [hourlyTotals, hourlyValidData, valOr0, List.range_succ,
      List.filter]

/-- C2 witness. -/
theorem c2_witness :
    ∃ app, app ∈ ([⟨"A", [10, 0]⟩, ⟨"B", [5]⟩] : List AppStack) ∧
      app.values.length = (["4/1", "4/2"] : List String).length ∧
      app.appName = ("A", (10 : ℚ)).1 ∧
      valOr0 app.values 0 = ("A", (10 : ℚ)).2 ∧
      0 < (("A", (10 : ℚ))).2 :=
  c2_thm.1 ["4/1", "4/2"] [⟨"A", [10, 0]⟩, ⟨"B", [5]⟩] 0 ("A", 10)
    (by decide)

end ChartGen
